import Mathlib

/-!
Verification of the AI storyboard video exporter (src/index.tsx).

This development shallowly embeds the parts of the program the claims
refer to:

* the bounded-concurrency `RequestQueue` (lines 195-216), modelled as a
  labelled transition system over `QState`;
* the scene data model (`StoryboardScene`, lines 228-237) and its
  mutations (scene creation, image selection, regeneration, generation
  batch start/completion/failure);
* the audio-acquisition phase of `handleExportVideo` (lines 689-717);
* the duration and crossfade arithmetic of `recordVideo`
  (lines 771-822), over exact rationals;
* the export entry points (`handleExportVideo` lines 681-688, the
  export button of `Header` lines 395-397).
-/

namespace Storyboard

/-! ## The bounded task queue (`RequestQueue`, src/index.tsx lines 195-216)

The queue stores thunks of type `() => Promise<void>`.  A job is
characterised here only by the way its invocation can behave:

* `ok` / `fails`: the invocation returns a promise which later resolves
  (respectively rejects).  In either case the `finally` handler installed
  at start time (`task().finally(...)`, line 211) runs on settlement.
* `throwsSync`: the invocation throws synchronously.  The expression
  `task()` then throws before `.finally` is attached, so no completion
  handler ever runs for the job.
-/

/-- How the invocation of a queued job behaves. -/
inductive JobKind
  | ok
  | fails
  | throwsSync
deriving DecidableEq, Repr

/-- State of a `RequestQueue` instance, instrumented with the history
needed to state the claims.  `waiting` is the `queue` array (jobs are
identified by a number and carry their behaviour); `running` lists the
promise-returning jobs whose promise is currently pending; `activeCount`
is the `activeCount` field of the class; `started` records, in order, the
jobs whose thunk has been invoked; `added` records, in order, every job
ever passed to `add`. -/
structure QState where
  waiting : List (Nat × JobKind)
  running : List Nat
  activeCount : Nat
  started : List Nat
  added : List (Nat × JobKind)
deriving DecidableEq, Repr

/-- The job identifiers of a list of (id, kind) pairs. -/
def ids (l : List (Nat × JobKind)) : List Nat := l.map Prod.fst

/-- `maxConcurrent = 3` (src/index.tsx line 198). -/
def maxConcurrent : Nat := 3

/-- One call of the private `process()` method (lines 205-215): if the
active count is below `maxConcurrent` and a job is waiting, shift the
first waiting job and invoke it.  For a promise-returning job the
`finally` handler is attached, so the job joins `running`; a job that
throws synchronously never gets its handler attached, so `activeCount`
stays incremented with nothing running (the exception propagates to the
caller of `process`). -/
def processQ (s : QState) : QState :=
  if maxConcurrent ≤ s.activeCount then s
  else
    match s.waiting with
    | [] => s
    | (j, k) :: rest =>
      if k = JobKind.throwsSync then
        { s with waiting := rest, activeCount := s.activeCount + 1,
                 started := s.started ++ [j] }
      else
        { s with waiting := rest, running := s.running ++ [j],
                 activeCount := s.activeCount + 1,
                 started := s.started ++ [j] }

/-- `add(task)` (lines 200-203): push the job and run `process()` once. -/
def addJob (j : Nat) (k : JobKind) (s : QState) : QState :=
  processQ { s with waiting := s.waiting ++ [(j, k)],
                    added := s.added ++ [(j, k)] }

/-- Settlement of a running promise-job (the `finally` callback,
lines 211-214): decrement `activeCount`, then run `process()` once.
The callback is the same whether the promise resolved or rejected,
which is how a job failure is swallowed by the scheduler. -/
def completeJob (j : Nat) (s : QState) : QState :=
  processQ { s with running := s.running.erase j,
                    activeCount := s.activeCount - 1 }

/-- The events the environment can trigger on a queue: adding a fresh
job, or the settlement of a currently pending promise-job. -/
inductive QStep : QState → QState → Prop
  | add (s : QState) (j : Nat) (k : JobKind) (h : j ∉ ids s.added) :
      QStep s (addJob j k s)
  | complete (s : QState) (j : Nat) (h : j ∈ s.running) :
      QStep s (completeJob j s)

/-- The freshly constructed queue (line 218). -/
def initQ : QState := { waiting := [], running := [], activeCount := 0,
                        started := [], added := [] }

/-- States the queue can reach from construction. -/
def QReachable (s : QState) : Prop := Relation.ReflTransGen QStep initQ s

/-- No job ever handed to this queue throws synchronously; this is the
contract promised by the type `() => Promise<void>` of the `queue`
field. -/
def NoSyncThrow (s : QState) : Prop := ∀ p ∈ s.added, p.2 ≠ JobKind.throwsSync

/-- Inductive invariant of the queue transition system. -/
structure QInv (s : QState) : Prop where
  count_le : s.activeCount ≤ maxConcurrent
  run_le : s.running.length ≤ s.activeCount
  account : s.started ++ ids s.waiting = ids s.added
  full_or_empty : s.activeCount = maxConcurrent ∨ s.waiting = []
  wait_sub : ∀ p ∈ s.waiting, p ∈ s.added
  added_nodup : (ids s.added).Nodup
  run_eq : NoSyncThrow s → s.running.length = s.activeCount

theorem processQ_of_full (s : QState) (h : maxConcurrent ≤ s.activeCount) :
    processQ s = s := by
  simp [processQ, h]

theorem processQ_of_nil (s : QState) (h : s.waiting = []) :
    processQ s = s := by
  unfold processQ
  rw [h]
  split <;> rfl

theorem processQ_cons_thrower (s : QState) (j : Nat)
    (rest : List (Nat × JobKind)) (hc : s.activeCount < maxConcurrent)
    (hw : s.waiting = (j, JobKind.throwsSync) :: rest) :
    processQ s = { s with waiting := rest, activeCount := s.activeCount + 1,
                          started := s.started ++ [j] } := by
  have hnc : ¬ maxConcurrent ≤ s.activeCount := Nat.not_le.mpr hc
  simp [processQ, hnc, hw]

theorem processQ_cons_promise (s : QState) (j : Nat) (k : JobKind)
    (rest : List (Nat × JobKind)) (hc : s.activeCount < maxConcurrent)
    (hw : s.waiting = (j, k) :: rest) (hk : k ≠ JobKind.throwsSync) :
    processQ s = { s with waiting := rest, running := s.running ++ [j],
                          activeCount := s.activeCount + 1,
                          started := s.started ++ [j] } := by
  have hnc : ¬ maxConcurrent ≤ s.activeCount := Nat.not_le.mpr hc
  simp [processQ, hnc, hw, hk]

theorem processQ_added (s : QState) : (processQ s).added = s.added := by
  unfold processQ
  split
  · rfl
  split
  · rfl
  split <;> rfl

theorem addJob_added (s : QState) (j : Nat) (k : JobKind) :
    (addJob j k s).added = s.added ++ [(j, k)] := by
  rw [addJob, processQ_added]

theorem completeJob_added (s : QState) (j : Nat) :
    (completeJob j s).added = s.added := by
  rw [completeJob, processQ_added]

theorem qinv_init : QInv initQ := by
  constructor <;> simp [initQ, ids, maxConcurrent, NoSyncThrow]

theorem qinv_add (s : QState) (hs : QInv s) (j : Nat) (k : JobKind)
    (hj : j ∉ ids s.added) : QInv (addJob j k s) := by
  have hids : ids (s.added ++ [(j, k)]) = ids s.added ++ [j] := by simp [ids]
  have hnodup : (ids (s.added ++ [(j, k)])).Nodup := by
    rw [hids, List.nodup_append]
    refine ⟨hs.added_nodup, List.nodup_singleton j, ?_⟩
    intro a ha hb
    simp only [List.mem_singleton] at hb
    subst hb
    exact hj ha
  by_cases hfull : maxConcurrent ≤ s.activeCount
  · have key : addJob j k s
        = { waiting := s.waiting ++ [(j, k)], running := s.running,
            activeCount := s.activeCount, started := s.started,
            added := s.added ++ [(j, k)] } := by
      rw [addJob]
      exact processQ_of_full _ hfull
    rw [key]
    refine ⟨hs.count_le, hs.run_le, ?_,
      Or.inl (le_antisymm hs.count_le hfull), ?_, hnodup, ?_⟩
    · show s.started ++ ids (s.waiting ++ [(j, k)]) = ids (s.added ++ [(j, k)])
      have hw : ids (s.waiting ++ [(j, k)]) = ids s.waiting ++ [j] := by
        simp [ids]
      rw [hw, hids, ← List.append_assoc, hs.account]
    · intro p hp
      show p ∈ s.added ++ [(j, k)]
      rcases List.mem_append.mp hp with hp | hp
      · exact List.mem_append_left _ (hs.wait_sub p hp)
      · exact List.mem_append_right _ hp
    · intro hns
      show s.running.length = s.activeCount
      exact hs.run_eq (fun p hp => hns p (List.mem_append_left _ hp))
  · have hc : s.activeCount < maxConcurrent := Nat.lt_of_not_le hfull
    have hwnil : s.waiting = [] := by
      rcases hs.full_or_empty with h | h
      · exact absurd h.ge hfull
      · exact h
    have hstart : s.started = ids s.added := by
      have h := hs.account
      rw [hwnil] at h
      simpa [ids] using h
    have hw : s.waiting ++ [(j, k)] = (j, k) :: [] := by
      rw [hwnil]
      rfl
    by_cases hk : k = JobKind.throwsSync
    · subst hk
      have key : addJob j (JobKind.throwsSync) s
          = { waiting := [], running := s.running,
              activeCount := s.activeCount + 1, started := s.started ++ [j],
              added := s.added ++ [(j, JobKind.throwsSync)] } := by
        rw [addJob]
        exact processQ_cons_thrower _ j [] hc hw
      rw [key]
      refine ⟨hc, ?_, ?_, Or.inr rfl, ?_, hnodup, ?_⟩
      · show s.running.length ≤ s.activeCount + 1
        exact le_trans hs.run_le (Nat.le_succ _)
      · show s.started ++ [j] ++ ids ([] : List (Nat × JobKind))
            = ids (s.added ++ [(j, JobKind.throwsSync)])
        simp [ids, hstart]
      · intro p hp
        simp only [List.not_mem_nil] at hp
      · intro hns
        exfalso
        exact hns (j, JobKind.throwsSync)
          (List.mem_append_right _ (by simp)) rfl
    · have key : addJob j k s
          = { waiting := [], running := s.running ++ [j],
              activeCount := s.activeCount + 1, started := s.started ++ [j],
              added := s.added ++ [(j, k)] } := by
        rw [addJob]
        exact processQ_cons_promise _ j k [] hc hw hk
      rw [key]
      refine ⟨hc, ?_, ?_, Or.inr rfl, ?_, hnodup, ?_⟩
      · show (s.running ++ [j]).length ≤ s.activeCount + 1
        rw [List.length_append, List.length_singleton]
        exact Nat.succ_le_succ hs.run_le
      · show s.started ++ [j] ++ ids ([] : List (Nat × JobKind))
            = ids (s.added ++ [(j, k)])
        simp [ids, hstart]
      · intro p hp
        simp only [List.not_mem_nil] at hp
      · intro hns
        have hns' : NoSyncThrow s :=
          fun p hp => hns p (List.mem_append_left _ hp)
        show (s.running ++ [j]).length = s.activeCount + 1
        rw [List.length_append, List.length_singleton, hs.run_eq hns']

theorem qinv_complete (s : QState) (hs : QInv s) (j : Nat)
    (hj : j ∈ s.running) : QInv (completeJob j s) := by
  have hrun1 : 0 < s.running.length := List.length_pos_of_mem hj
  have hcount1 : 1 ≤ s.activeCount := lt_of_lt_of_le hrun1 hs.run_le
  have herase : (s.running.erase j).length = s.running.length - 1 :=
    List.length_erase_of_mem hj
  have hc : s.activeCount - 1 < maxConcurrent := by
    have h3 := hs.count_le
    simp only [maxConcurrent] at h3 ⊢
    omega
  rcases hwait : s.waiting with _ | ⟨⟨p1, p2⟩, rest⟩
  · have key : completeJob j s
        = { waiting := s.waiting, running := s.running.erase j,
            activeCount := s.activeCount - 1, started := s.started,
            added := s.added } := by
      rw [completeJob]
      exact processQ_of_nil _ hwait
    rw [key]
    refine ⟨?_, ?_, hs.account, Or.inr hwait, hs.wait_sub, hs.added_nodup, ?_⟩
    · show s.activeCount - 1 ≤ maxConcurrent
      exact le_trans (Nat.sub_le _ _) hs.count_le
    · show (s.running.erase j).length ≤ s.activeCount - 1
      rw [herase]
      exact Nat.sub_le_sub_right hs.run_le 1
    · intro hns
      show (s.running.erase j).length = s.activeCount - 1
      rw [herase, hs.run_eq hns]
  · have hfull : s.activeCount = maxConcurrent := by
      rcases hs.full_or_empty with h | h
      · exact h
      · rw [h] at hwait; cases hwait
    have hp_mem : (p1, p2) ∈ s.added :=
      hs.wait_sub _ (by rw [hwait]; exact List.mem_cons_self _ _)
    have haccount' : s.started ++ [p1] ++ ids rest = ids s.added := by
      have h := hs.account
      rw [hwait] at h
      simpa [ids, List.append_assoc] using h
    have hsub' : ∀ p ∈ rest, p ∈ s.added := fun p hp =>
      hs.wait_sub p (by rw [hwait]; exact List.mem_cons_of_mem _ hp)
    by_cases hk : p2 = JobKind.throwsSync
    · subst hk
      have key : completeJob j s
          = { waiting := rest, running := s.running.erase j,
              activeCount := s.activeCount - 1 + 1,
              started := s.started ++ [p1], added := s.added } := by
        rw [completeJob]
        exact processQ_cons_thrower _ p1 rest hc hwait
      rw [key]
      refine ⟨?_, ?_, haccount', ?_, hsub', hs.added_nodup, ?_⟩
      · show s.activeCount - 1 + 1 ≤ maxConcurrent
        have := hs.count_le; omega
      · show (s.running.erase j).length ≤ s.activeCount - 1 + 1
        rw [herase]
        have := hs.run_le; omega
      · left
        show s.activeCount - 1 + 1 = maxConcurrent
        omega
      · intro hns
        exfalso
        exact hns (p1, JobKind.throwsSync) hp_mem rfl
    · have key : completeJob j s
          = { waiting := rest, running := s.running.erase j ++ [p1],
              activeCount := s.activeCount - 1 + 1,
              started := s.started ++ [p1], added := s.added } := by
        rw [completeJob]
        exact processQ_cons_promise _ p1 p2 rest hc hwait hk
      rw [key]
      refine ⟨?_, ?_, haccount', ?_, hsub', hs.added_nodup, ?_⟩
      · show s.activeCount - 1 + 1 ≤ maxConcurrent
        have := hs.count_le; omega
      · show (s.running.erase j ++ [p1]).length ≤ s.activeCount - 1 + 1
        rw [List.length_append, List.length_singleton, herase]
        have := hs.run_le; omega
      · left
        show s.activeCount - 1 + 1 = maxConcurrent
        omega
      · intro hns
        have := hs.run_eq hns
        show (s.running.erase j ++ [p1]).length = s.activeCount - 1 + 1
        rw [List.length_append, List.length_singleton, herase]
        omega

theorem qinv_step (s t : QState) (hs : QInv s) (h : QStep s t) : QInv t := by
  cases h with
  | add j k hj => exact qinv_add s hs j k hj
  | complete j hj => exact qinv_complete s hs j hj

theorem qinv_of_reachable (s : QState) (h : QReachable s) : QInv s := by
  induction h with
  | refl => exact qinv_init
  | tail _ hstep ih => exact qinv_step _ _ ih hstep

theorem drainStop (s : QState) (hs : QInv s) (hns : NoSyncThrow s)
    (hrun : s.running = []) :
    s.waiting = [] ∧ s.started = ids s.added := by
  have hcount : s.activeCount = 0 := by
    have h := hs.run_eq hns
    rw [hrun] at h
    simpa using h.symm
  have hwait : s.waiting = [] := by
    rcases hs.full_or_empty with h | h
    · rw [hcount] at h
      simp [maxConcurrent] at h
    · exact h
  refine ⟨hwait, ?_⟩
  have h := hs.account
  rw [hwait] at h
  simpa [ids] using h

theorem completeJob_measure (s : QState) (hs : QInv s) (hns : NoSyncThrow s)
    (j : Nat) (hj : j ∈ s.running) :
    (completeJob j s).waiting.length + (completeJob j s).running.length + 1
      = s.waiting.length + s.running.length := by
  have hrun1 : 0 < s.running.length := List.length_pos_of_mem hj
  have hcount1 : 1 ≤ s.activeCount := lt_of_lt_of_le hrun1 hs.run_le
  have herase : (s.running.erase j).length = s.running.length - 1 :=
    List.length_erase_of_mem hj
  have hc : s.activeCount - 1 < maxConcurrent := by
    have h3 := hs.count_le
    simp only [maxConcurrent] at h3 ⊢
    omega
  rcases hwait : s.waiting with _ | ⟨⟨p1, p2⟩, rest⟩
  · have key : completeJob j s
        = { waiting := s.waiting, running := s.running.erase j,
            activeCount := s.activeCount - 1, started := s.started,
            added := s.added } := by
      rw [completeJob]
      exact processQ_of_nil _ hwait
    rw [key]
    show s.waiting.length + (s.running.erase j).length + 1
        = ([] : List (Nat × JobKind)).length + s.running.length
    rw [herase, hwait]
    simp only [List.length_nil]
    omega
  · have hk : p2 ≠ JobKind.throwsSync :=
      hns (p1, p2) (hs.wait_sub _ (by rw [hwait]; exact List.mem_cons_self _ _))
    have key : completeJob j s
        = { waiting := rest, running := s.running.erase j ++ [p1],
            activeCount := s.activeCount - 1 + 1,
            started := s.started ++ [p1], added := s.added } := by
      rw [completeJob]
      exact processQ_cons_promise _ p1 p2 rest hc hwait hk
    rw [key]
    show rest.length + (s.running.erase j ++ [p1]).length + 1
        = ((p1, p2) :: rest).length + s.running.length
    rw [List.length_append, List.length_singleton, herase, List.length_cons]
    omega

theorem noSyncThrow_complete (s : QState) (hns : NoSyncThrow s) (j : Nat) :
    NoSyncThrow (completeJob j s) := by
  intro p hp
  rw [completeJob_added] at hp
  exact hns p hp

theorem drainAux (n : Nat) : ∀ s : QState, QInv s → NoSyncThrow s →
    s.waiting.length + s.running.length ≤ n →
    ∃ t : QState, Relation.ReflTransGen QStep s t ∧ t.added = s.added ∧
      t.waiting = [] ∧ t.running = [] ∧ t.started = ids s.added := by
  induction n with
  | zero =>
    intro s hs hns hlen
    have hrun : s.running = [] := List.eq_nil_of_length_eq_zero (by omega)
    obtain ⟨hwait, hst⟩ := drainStop s hs hns hrun
    exact ⟨s, Relation.ReflTransGen.refl, rfl, hwait, hrun, hst⟩
  | succ n ih =>
    intro s hs hns hlen
    rcases hrun : s.running with _ | ⟨j, rjs⟩
    · obtain ⟨hwait, hst⟩ := drainStop s hs hns hrun
      exact ⟨s, Relation.ReflTransGen.refl, rfl, hwait, hrun, hst⟩
    · have hj : j ∈ s.running := by
        rw [hrun]
        exact List.mem_cons_self _ _
      have hstep : QStep s (completeJob j s) := QStep.complete s j hj
      have hinv' := qinv_complete s hs j hj
      have hns' := noSyncThrow_complete s hns j
      have hlen' : (completeJob j s).waiting.length
          + (completeJob j s).running.length ≤ n := by
        have := completeJob_measure s hs hns j hj
        omega
      obtain ⟨t, htr, ha, hw, hr, hst⟩ := ih (completeJob j s) hinv' hns' hlen'
      refine ⟨t, Relation.ReflTransGen.head hstep htr, ?_, hw, hr, ?_⟩
      · rw [ha, completeJob_added]
      · rw [hst, completeJob_added]

/-- C1: for every sequence of jobs added to the task queue (each returning
a promise, as the type `() => Promise<void>` of the queue's entries
promises), in every reachable queue state at most `maxConcurrent = 3`
jobs are executing concurrently, the jobs started so far are exactly a
prefix of the jobs in the order they were added (FIFO admission), no job
is ever started twice, and from every reachable state the queue can be
drained by letting the running jobs settle so that every added job has
been started exactly once. -/
theorem requestQueue_bounded_fifo_once (s : QState) (hs : QReachable s)
    (hns : NoSyncThrow s) :
    s.running.length ≤ maxConcurrent ∧
    s.started ++ ids s.waiting = ids s.added ∧
    s.started.Nodup ∧
    ∃ t : QState, Relation.ReflTransGen QStep s t ∧
      t.started = ids s.added ∧ t.started.Nodup := by
  have hinv := qinv_of_reachable s hs
  refine ⟨le_trans hinv.run_le hinv.count_le, hinv.account, ?_, ?_⟩
  · have h : (s.started ++ ids s.waiting).Nodup := by
      rw [hinv.account]
      exact hinv.added_nodup
    exact h.of_append_left
  · obtain ⟨t, htr, _, _, _, hst⟩ :=
      drainAux (s.waiting.length + s.running.length) s hinv hns le_rfl
    refine ⟨t, htr, hst, ?_⟩
    rw [hst]
    exact hinv.added_nodup

/-- A small reachable queue state used to witness the hypotheses of the
queue theorems: one promise-returning job has been added (and was
immediately started). -/
def qWitness : QState := addJob 0 JobKind.ok initQ

theorem requestQueue_bounded_fifo_once_witness :
    QReachable qWitness ∧ NoSyncThrow qWitness ∧
    (qWitness.running.length ≤ maxConcurrent ∧
     qWitness.started ++ ids qWitness.waiting = ids qWitness.added ∧
     qWitness.started.Nodup ∧
     ∃ t : QState, Relation.ReflTransGen QStep qWitness t ∧
       t.started = ids qWitness.added ∧ t.started.Nodup) := by
  have h1 : QReachable qWitness :=
    Relation.ReflTransGen.single
      (QStep.add initQ 0 JobKind.ok (by simp [initQ, ids]))
  have h2 : NoSyncThrow qWitness := by
    intro p hp
    have : qWitness.added = [(0, JobKind.ok)] := by decide
    rw [this] at hp
    simp only [List.mem_singleton] at hp
    subst hp
    simp
  exact ⟨h1, h2, requestQueue_bounded_fifo_once qWitness h1 h2⟩

/-- The queue state after adding three jobs that throw synchronously when
invoked, followed by one well-behaved job. -/
def c2state : QState :=
  addJob 3 JobKind.ok
    (addJob 2 JobKind.throwsSync
      (addJob 1 JobKind.throwsSync
        (addJob 0 JobKind.throwsSync initQ)))

/-- C2 counterexample: the three synchronously-throwing jobs were each
invoked and failed, yet `activeCount` is still 3 with nothing running —
their failures were not swallowed into a decrement of the active count —
and the waiting well-behaved job 3 is never admitted: no completion
handler exists (nothing is running) and a further `process()` call is a
no-op, so the queue is permanently stuck.  This refutes the claim that on
completion of any job, including one that throws synchronously when
invoked, the active count is decremented and one more waiting job is
admitted. -/
theorem requestQueue_syncThrow_cex :
    c2state.activeCount = 3 ∧ c2state.running = [] ∧
    c2state.waiting = [(3, JobKind.ok)] ∧ c2state.started = [0, 1, 2] ∧
    processQ c2state = c2state := by decide

/-- C2 amended: for jobs whose invocation returns a promise, the
settlement of a running job — whether the promise resolved or rejected;
the `finally` handler does not distinguish them, so a failure is
swallowed and the queue never crashes — decrements the active count and
then admits exactly the first waiting job, if any (restoring the active
count); the queue therefore keeps draining.  Jobs that throw
synchronously when invoked are excluded: they leak their active-count
slot (see the counterexample). -/
theorem requestQueue_completion_admits (s : QState) (hs : QReachable s)
    (j : Nat) (hj : j ∈ s.running) :
    (completeJob j s).started = s.started ++ ids (s.waiting.take 1) ∧
    (completeJob j s).waiting = s.waiting.drop 1 ∧
    (completeJob j s).activeCount + 1
      = s.activeCount + (s.waiting.take 1).length := by
  have hinv := qinv_of_reachable s hs
  have hrun1 : 0 < s.running.length := List.length_pos_of_mem hj
  have hcount1 : 1 ≤ s.activeCount := lt_of_lt_of_le hrun1 hinv.run_le
  have hc : s.activeCount - 1 < maxConcurrent := by
    have h3 := hinv.count_le
    simp only [maxConcurrent] at h3 ⊢
    omega
  rcases hwait : s.waiting with _ | ⟨⟨p1, p2⟩, rest⟩
  · have key : completeJob j s
        = { waiting := s.waiting, running := s.running.erase j,
            activeCount := s.activeCount - 1, started := s.started,
            added := s.added } := by
      rw [completeJob]
      exact processQ_of_nil _ hwait
    rw [key]
    refine ⟨by simp [ids], by simp [hwait], ?_⟩
    show s.activeCount - 1 + 1
        = s.activeCount + (List.take 1 ([] : List (Nat × JobKind))).length
    simp
    omega
  · by_cases hk : p2 = JobKind.throwsSync
    · subst hk
      have key : completeJob j s
          = { waiting := rest, running := s.running.erase j,
              activeCount := s.activeCount - 1 + 1,
              started := s.started ++ [p1], added := s.added } := by
        rw [completeJob]
        exact processQ_cons_thrower _ p1 rest hc hwait
      rw [key]
      refine ⟨by simp [ids], rfl, ?_⟩
      show s.activeCount - 1 + 1 + 1
          = s.activeCount + (((p1, JobKind.throwsSync) :: rest).take 1).length
      simp
      omega
    · have key : completeJob j s
          = { waiting := rest, running := s.running.erase j ++ [p1],
              activeCount := s.activeCount - 1 + 1,
              started := s.started ++ [p1], added := s.added } := by
        rw [completeJob]
        exact processQ_cons_promise _ p1 p2 rest hc hwait hk
      rw [key]
      refine ⟨by simp [ids], rfl, ?_⟩
      show s.activeCount - 1 + 1 + 1
          = s.activeCount + (((p1, p2) :: rest).take 1).length
      simp
      omega

theorem requestQueue_completion_admits_witness :
    QReachable qWitness ∧ 0 ∈ qWitness.running ∧
    ((completeJob 0 qWitness).started
        = qWitness.started ++ ids (qWitness.waiting.take 1) ∧
     (completeJob 0 qWitness).waiting = qWitness.waiting.drop 1 ∧
     (completeJob 0 qWitness).activeCount + 1
        = qWitness.activeCount + (qWitness.waiting.take 1).length) := by
  have h1 : QReachable qWitness :=
    Relation.ReflTransGen.single
      (QStep.add initQ 0 JobKind.ok (by simp [initQ, ids]))
  have h2 : 0 ∈ qWitness.running := by decide
  exact ⟨h1, h2, requestQueue_completion_admits qWitness h1 0 h2⟩

/-! ## The scene data model and its mutations (src/index.tsx)

`StoryboardScene` (lines 228-237).  Image data and audio bytes are
abstracted to strings and byte lists; `audioData` is the scene's
`ArrayBuffer` field and `audioDuration` its duration in seconds, as an
exact rational. -/

structure StoryboardScene where
  id : Nat
  originalText : String
  visualDescription : String
  images : List String
  selectedImageIndex : Nat
  isGeneratingImages : Bool
  audioData : Option (List Nat)
  audioDuration : Option ℚ
deriving DecidableEq, Repr

/-- Scene creation during script analysis (lines 610-617). -/
def mkScene (id : Nat) (text visual : String) : StoryboardScene :=
  { id := id, originalText := text, visualDescription := visual,
    images := [], selectedImageIndex := 0, isGeneratingImages := false,
    audioData := none, audioDuration := none }

/-- `onSelectImage` (line 899): set the selected index of the scene with
the given id. -/
def selectImage (sid idx : Nat) (scenes : List StoryboardScene) :
    List StoryboardScene :=
  scenes.map fun s =>
    if s.id = sid then { s with selectedImageIndex := idx } else s

/-- Start of a queued generation job for a scene (line 643). -/
def genStart (sid : Nat) (scenes : List StoryboardScene) :
    List StoryboardScene :=
  scenes.map fun s =>
    if s.id = sid then { s with isGeneratingImages := true } else s

/-- Successful completion of a generation batch (lines 667-669): replace
the image list wholesale, clear the generating flag and reset the
selected index to 0. -/
def genComplete (sid : Nat) (newImages : List String)
    (scenes : List StoryboardScene) : List StoryboardScene :=
  scenes.map fun s =>
    if s.id = sid then
      { s with images := newImages, isGeneratingImages := false,
               selectedImageIndex := 0 }
    else s

/-- Failure of a generation batch (line 671): only the flag is cleared. -/
def genFail (sid : Nat) (scenes : List StoryboardScene) :
    List StoryboardScene :=
  scenes.map fun s =>
    if s.id = sid then { s with isGeneratingImages := false } else s

/-- `handleRegenerateImages` (line 677): clear the image list of the
scene with the given id.  Note that `selectedImageIndex` is NOT reset
here. -/
def regenerateImages (sid : Nat) (scenes : List StoryboardScene) :
    List StoryboardScene :=
  scenes.map fun s => if s.id = sid then { s with images := [] } else s

/-- The selected-image invariant of the spec:
`0 ≤ selectedImageIndex < max(1, len(images))` (the lower bound is
inherent in the `Nat` index). -/
def sceneInv (s : StoryboardScene) : Prop :=
  s.selectedImageIndex < max 1 s.images.length

instance (s : StoryboardScene) : Decidable (sceneInv s) :=
  inferInstanceAs (Decidable (_ < _))

/-- A scene list exercising the regeneration path: one scene is created,
a generation batch delivers four images, the user selects the third, and
then clicks regenerate. -/
def c5state : List StoryboardScene :=
  regenerateImages 1
    (selectImage 1 2
      (genComplete 1 ["a", "b", "c", "d"]
        (genStart 1 [mkScene 1 "text" "visual"])))

/-- C5 counterexample: after `handleRegenerateImages` the scene has
`images = []` but still `selectedImageIndex = 2`, so
`selectedImageIndex < max 1 (len images)` fails: the invariant does not
hold after every mutation. -/
theorem selectedIndex_invariant_cex : ¬ (∀ s ∈ c5state, sceneInv s) := by
  decide

/-- C5 amended: the invariant `0 ≤ selectedImageIndex < max(1, len images)`
holds after scene creation, after selecting an image (the UI only offers
indices of existing images), after a generation batch starts, completes
or fails — but `handleRegenerateImages` clears the image list without
resetting `selectedImageIndex`, so the invariant can be violated until
the regeneration batch completes, which resets the index to 0 and
restores it. -/
theorem selectedIndex_invariant_preserved (scenes : List StoryboardScene)
    (sid idx : Nat) (imgs : List String)
    (hinv : ∀ s ∈ scenes, sceneInv s)
    (hidx : ∀ s ∈ scenes, s.id = sid → idx < s.images.length) :
    (∀ i t v, sceneInv (mkScene i t v)) ∧
    (∀ s ∈ selectImage sid idx scenes, sceneInv s) ∧
    (∀ s ∈ genStart sid scenes, sceneInv s) ∧
    (∀ s ∈ genComplete sid imgs scenes, sceneInv s) ∧
    (∀ s ∈ genFail sid scenes, sceneInv s) ∧
    (∀ s ∈ genComplete sid imgs (regenerateImages sid scenes), sceneInv s) := by
  have hone : ∀ n : Nat, 0 < max 1 n := fun n =>
    lt_of_lt_of_le Nat.zero_lt_one (le_max_left 1 n)
  refine ⟨?_, ?_, ?_, ?_, ?_, ?_⟩
  · intro i t v
    show (0 : Nat) < max 1 ([] : List String).length
    exact hone _
  · intro s hs
    obtain ⟨x, hx, rfl⟩ := List.mem_map.mp hs
    by_cases h : x.id = sid
    · simp only [h, if_pos]
      show idx < max 1 x.images.length
      exact lt_of_lt_of_le (hidx x hx h) (le_max_right 1 _)
    · simp only [h, if_neg, if_false]
      exact hinv x hx
  · intro s hs
    obtain ⟨x, hx, rfl⟩ := List.mem_map.mp hs
    by_cases h : x.id = sid
    · simp only [h, if_pos]
      exact hinv x hx
    · simp only [h, if_neg, if_false]
      exact hinv x hx
  · intro s hs
    obtain ⟨x, hx, rfl⟩ := List.mem_map.mp hs
    by_cases h : x.id = sid
    · simp only [h, if_pos]
      show (0 : Nat) < max 1 imgs.length
      exact hone _
    · simp only [h, if_neg, if_false]
      exact hinv x hx
  · intro s hs
    obtain ⟨x, hx, rfl⟩ := List.mem_map.mp hs
    by_cases h : x.id = sid
    · simp only [h, if_pos]
      exact hinv x hx
    · simp only [h, if_neg, if_false]
      exact hinv x hx
  · intro s hs
    obtain ⟨y, hy, rfl⟩ := List.mem_map.mp hs
    obtain ⟨x, hx, rfl⟩ := List.mem_map.mp hy
    by_cases h : x.id = sid
    · simp only [h, if_pos]
      show (0 : Nat) < max 1 imgs.length
      exact hone _
    · simp only [h, if_neg, if_false]
      exact hinv x hx

/-- A concrete scene list with images, used to discharge the hypotheses
of the invariant-preservation theorem. -/
def sceneWitList : List StoryboardScene :=
  genComplete 1 ["a", "b", "c", "d"] [mkScene 1 "t" "v"]

theorem selectedIndex_invariant_preserved_witness :
    (∀ s ∈ sceneWitList, sceneInv s) ∧
    (∀ s ∈ sceneWitList, s.id = 1 → 2 < s.images.length) ∧
    ((∀ i t v, sceneInv (mkScene i t v)) ∧
     (∀ s ∈ selectImage 1 2 sceneWitList, sceneInv s) ∧
     (∀ s ∈ genStart 1 sceneWitList, sceneInv s) ∧
     (∀ s ∈ genComplete 1 ["x"] sceneWitList, sceneInv s) ∧
     (∀ s ∈ genFail 1 sceneWitList, sceneInv s) ∧
     (∀ s ∈ genComplete 1 ["x"] (regenerateImages 1 sceneWitList),
        sceneInv s)) := by
  refine ⟨by decide, by decide, ?_⟩
  exact selectedIndex_invariant_preserved sceneWitList 1 2 ["x"]
    (by decide) (by decide)

/-! ## Audio acquisition and render arithmetic

`handleExportVideo` (lines 689-717) acquires audio per scene;
`recordVideo` (lines 764-826) computes each scene's effective duration
and the crossfade opacity.  All real-number arithmetic is modelled over
exact rationals. -/

/-- `Math.min` on two rationals. -/
def jsMin (a b : ℚ) : ℚ := if a ≤ b then a else b

/-- `Math.max` on two rationals. -/
def jsMax (a b : ℚ) : ℚ := if a ≤ b then b else a

theorem jsMin_eq_min (a b : ℚ) : jsMin a b = min a b := by
  simp [jsMin, min_def]

theorem jsMax_eq_max (a b : ℚ) : jsMax a b = max a b := by
  simp [jsMax, max_def]

/-- `const rate = Math.max(0.1, Math.min(settings.ttsRate, 4.0))`
(line 772). -/
def clampRate (r : ℚ) : ℚ := jsMax (1 / 10) (jsMin r 4)

theorem clampRate_eq (r : ℚ) : clampRate r = max (1 / 10) (min r 4) := by
  rw [clampRate, jsMax_eq_max, jsMin_eq_min]

/-- JavaScript `x || dflt` on an optional number: `undefined` and `0` are
falsy. -/
def jsOrDefault (d : Option ℚ) (dflt : ℚ) : ℚ :=
  match d with
  | some x => if x = 0 then dflt else x
  | none => dflt

/-- `settings.ttsProvider` (line 240). -/
inductive TTSProviderType
  | gemini
  | browser
deriving DecidableEq, Repr

/-- Environment of the audio-acquisition phase: the configured provider,
whether the `ai` client was initialised, the speech-synthesis call
(`none` models a thrown/failed request or a response without audio
bytes), and `decodeAudioData` (`none` models a decode failure; on
success it returns the decoded buffer's duration in seconds). -/
structure TTSEnv where
  provider : TTSProviderType
  aiAvailable : Bool
  synth : String → Option (List Nat)
  decode : List Nat → Option ℚ

/-- The text handed to the synthesis call:
`scene.originalText || " "` (line 699); only the empty string is falsy. -/
def ttsText (t : String) : String := if t = "" then " " else t

/-- The fallback duration estimate
`Math.max(2, (scene.originalText.length || 1) * 0.25)` (line 714). -/
def estimateDuration (text : String) : ℚ :=
  jsMax 2 ((if text.length = 0 then 1 else (text.length : ℚ)) * (1 / 4))

/-- Audio acquisition for one scene (lines 693-715): scenes that already
have audio are skipped; with the gemini provider and an initialised
client, a successful synthesis + decode stores the bytes and the decoded
duration together, and any failure (request error, missing bytes, decode
error) leaves the scene untouched (the `catch(e) {}` on line 711);
otherwise only the estimated duration is stored. -/
def acquireAudio (env : TTSEnv) (s : StoryboardScene) : StoryboardScene :=
  if s.audioData.isSome then s
  else if env.provider = TTSProviderType.gemini ∧ env.aiAvailable = true then
    match env.synth (ttsText s.originalText) with
    | some bytes =>
      match env.decode bytes with
      | some dur =>
        { s with audioData := some bytes, audioDuration := some dur }
      | none => s
    | none => s
  else { s with audioDuration := some (estimateDuration s.originalText) }

/-- The per-scene effective duration in milliseconds computed by
`recordVideo` (lines 771-785): with audio data,
`(buffer.duration / rate) * 1000` where the buffer is re-decoded from the
stored bytes (`none` if that decode fails); without audio data,
`(scene.audioDuration || 2) * 1000 / rate`. -/
def effectiveDurationMs (dec : List Nat → Option ℚ) (rate : ℚ)
    (s : StoryboardScene) : Option ℚ :=
  match s.audioData with
  | some bytes => (dec bytes).map fun d => d / clampRate rate * 1000
  | none => some (jsOrDefault s.audioDuration 2 * 1000 / clampRate rate)

/-- Opacity at which the next scene's image is composited (lines
814-816): it is drawn only when `effectiveDuration - elapsed < 500` and a
next image exists, with `globalAlpha = 1 - ((total - elapsed) / 500)`;
otherwise it is not drawn at all (opacity 0). -/
def nextImageOpacity (hasNext : Bool) (elapsed total : ℚ) : ℚ :=
  if total - elapsed < 500 ∧ hasNext = true then 1 - (total - elapsed) / 500
  else 0

/-- Browser-provider environment (no Gemini TTS): the else-branch of
line 712 runs for every scene. -/
def envBrowser : TTSEnv :=
  { provider := TTSProviderType.browser, aiAvailable := true,
    synth := fun _ => none, decode := fun _ => none }

/-- Gemini provider whose synthesis request always fails. -/
def envGeminiFail : TTSEnv :=
  { provider := TTSProviderType.gemini, aiAvailable := true,
    synth := fun _ => none, decode := fun _ => none }

/-- A scene whose narration has 8 characters. -/
def scene8 : StoryboardScene := mkScene 3 "12345678" "v"

/-- A scene whose narration has 12 characters. -/
def scene12 : StoryboardScene := mkScene 2 "012345678901" "v"

/-- A scene whose narration has 40 characters. -/
def sceneLong : StoryboardScene :=
  mkScene 1 "0123456789012345678901234567890123456789" "v"

/-- C4: for every scene with a next image and every elapsed time within
the scene, the composited opacity of the next image is 0 strictly before
the final 500 ms, equals `(elapsed - (total - 500)) / 500` — linear from
0 to 1 as the remaining time shrinks from 500 ms to 0 — once inside the
final 500 ms, and is exactly 1 at `elapsed = total`, so the crossfade
completes exactly at the scene boundary. -/
theorem crossfade_opacity (elapsed total : ℚ) (h : elapsed ≤ total) :
    (elapsed < total - 500 → nextImageOpacity true elapsed total = 0) ∧
    (total - 500 ≤ elapsed →
      nextImageOpacity true elapsed total = (elapsed - (total - 500)) / 500) ∧
    (elapsed = total → nextImageOpacity true elapsed total = 1) := by
  refine ⟨?_, ?_, ?_⟩
  · intro h1
    unfold nextImageOpacity
    rw [if_neg]
    intro hc
    have := hc.1
    linarith
  · intro h2
    unfold nextImageOpacity
    by_cases hlt : total - elapsed < 500
    · rw [if_pos ⟨hlt, rfl⟩]
      field_simp
      ring
    · rw [if_neg (fun hc => hlt hc.1)]
      have he : elapsed - (total - 500) = 0 := by
        have h500 : 500 ≤ total - elapsed := le_of_not_lt hlt
        linarith
      rw [he, zero_div]
  · intro h3
    subst h3
    unfold nextImageOpacity
    rw [if_pos ⟨by norm_num, rfl⟩]
    simp

theorem crossfade_opacity_witness :
    (1600 : ℚ) ≤ 2000 ∧ nextImageOpacity true 1600 2000 = 1 / 5 := by
  constructor
  · norm_num
  · have h := (crossfade_opacity 1600 2000 (by norm_num)).2.1 (by norm_num)
    rw [h]
    norm_num

/-- A string made up exclusively of whitespace characters. -/
def isWhitespaceOnly (s : String) : Bool := s.toList.all Char.isWhitespace

/-- C9 counterexample: the narration `"  "` consists only of whitespace,
yet the text sent to the synthesis call is `"  "` itself, not a single
space — `scene.originalText || " "` substitutes only when the string is
empty, because a nonempty whitespace string is truthy in JavaScript. -/
theorem ttsText_whitespace_cex :
    isWhitespaceOnly "  " = true ∧ ttsText "  " = "  " ∧
    ("  " : String) ≠ " " := by
  refine ⟨rfl, by simp [ttsText], by simp⟩

/-- C9 amended: only a scene whose `originalText` is the empty string has
its synthesis text substituted with a single space; any nonempty text —
including whitespace-only text — is sent unchanged. -/
theorem ttsText_substitution (t : String) :
    (t = "" → ttsText t = " ") ∧ (t ≠ "" → ttsText t = t) := by
  constructor
  · intro h
    simp [ttsText, h]
  · intro h
    simp [ttsText, h]

theorem ttsText_substitution_witness :
    ttsText "" = " " ∧ ttsText "ab" = "ab" :=
  ⟨(ttsText_substitution "").1 rfl, (ttsText_substitution "ab").2 (by simp)⟩

/-- C6 counterexample: acquiring audio for a fresh scene under the
browser provider stores `audioDuration = 2` (the estimate for 5
characters) while `audioData` stays unset — the two fields are not
"both set or both unset". -/
theorem audioFields_together_cex :
    (acquireAudio envBrowser (mkScene 1 "hello" "v")).audioDuration = some 2 ∧
    (acquireAudio envBrowser (mkScene 1 "hello" "v")).audioData = none := by
  have h5 : ("hello").length = 5 := rfl
  have hest : estimateDuration "hello" = 2 := by
    norm_num [estimateDuration, jsMax, h5]
  constructor
  · show some (estimateDuration "hello") = some 2
    rw [hest]
  · rfl

/-- C6 amended: the acquisition phase never sets the audio buffer without
also setting the duration — a successful synthesis and decode stores
both together, the estimate fallback stores the duration alone, and
every failure path stores neither; so `audioData` set implies
`audioDuration` set is preserved. -/
theorem audioFields_data_implies_duration (env : TTSEnv)
    (s : StoryboardScene)
    (h : s.audioData.isSome = true → s.audioDuration.isSome = true) :
    (acquireAudio env s).audioData.isSome = true →
    (acquireAudio env s).audioDuration.isSome = true := by
  unfold acquireAudio
  split
  · exact h
  split
  · rcases h1 : env.synth (ttsText s.originalText) with _ | bytes
    · simp only [h1]
      exact h
    · simp only [h1]
      rcases h2 : env.decode bytes with _ | dur
      · simp only [h2]
        exact h
      · simp only [h2]
        intro
        rfl
  · intro
    rfl

theorem audioFields_data_implies_duration_witness :
    ((mkScene 1 "x" "v").audioData.isSome = true →
      (mkScene 1 "x" "v").audioDuration.isSome = true) ∧
    ((acquireAudio envGeminiFail (mkScene 1 "x" "v")).audioData.isSome = true →
      (acquireAudio envGeminiFail (mkScene 1 "x" "v")).audioDuration.isSome
        = true) := by
  have h : (mkScene 1 "x" "v").audioData.isSome = true →
      (mkScene 1 "x" "v").audioDuration.isSome = true := by
    intro hh
    simp [mkScene] at hh
  exact ⟨h, audioFields_data_implies_duration envGeminiFail _ h⟩

/-- C7 counterexample: a scene with 40 characters of narration whose
synthesis request fails is left without audio and without a stored
duration, and `recordVideo` then uses `(scene.audioDuration || 2)`,
giving an effective duration of 2000 ms at rate 1 — not the
10000 ms = max(2, 40·0.25)·1000 the deterministic estimate would give. -/
theorem ttsFailure_duration_cex :
    acquireAudio envGeminiFail sceneLong = sceneLong ∧
    effectiveDurationMs (fun _ => none) 1 (acquireAudio envGeminiFail sceneLong)
      = some 2000 ∧
    estimateDuration sceneLong.originalText * 1000 / clampRate 1 = 10000 ∧
    (2000 : ℚ) ≠ 10000 := by
  have h40 : sceneLong.originalText.length = 40 := rfl
  refine ⟨rfl, ?_, ?_, by norm_num⟩
  · show some (jsOrDefault none 2 * 1000 / clampRate 1) = some 2000
    norm_num [jsOrDefault, clampRate, jsMin, jsMax]
  · norm_num [estimateDuration, jsMax, h40, clampRate, jsMin]

/-- C7 amended: a failed synthesis request is non-fatal and silent — the
scene is left exactly as it was, without audio — and at render time such
a scene's effective duration is the constant 2.0 seconds divided by the
clamped rate (the deterministic estimate `max(2, charCount·0.25)` is NOT
applied there; the two agree only for narrations of at most 8
characters). -/
theorem ttsFailure_fallback (env : TTSEnv) (s : StoryboardScene) (rate : ℚ)
    (dec : List Nat → Option ℚ)
    (h1 : s.audioData = none) (h2 : s.audioDuration = none)
    (h3 : env.provider = TTSProviderType.gemini) (h4 : env.aiAvailable = true)
    (h5 : env.synth (ttsText s.originalText) = none) :
    acquireAudio env s = s ∧
    effectiveDurationMs dec rate (acquireAudio env s)
      = some (2 * 1000 / clampRate rate) := by
  have hacq : acquireAudio env s = s := by
    simp [acquireAudio, h1, h3, h4, h5]
  refine ⟨hacq, ?_⟩
  rw [hacq]
  simp [effectiveDurationMs, h1, h2, jsOrDefault]

theorem ttsFailure_fallback_witness :
    sceneLong.audioData = none ∧ sceneLong.audioDuration = none ∧
    envGeminiFail.provider = TTSProviderType.gemini ∧
    envGeminiFail.aiAvailable = true ∧
    envGeminiFail.synth (ttsText sceneLong.originalText) = none ∧
    (acquireAudio envGeminiFail sceneLong = sceneLong ∧
     effectiveDurationMs (fun _ => none) 1 (acquireAudio envGeminiFail sceneLong)
       = some (2 * 1000 / clampRate 1)) :=
  ⟨rfl, rfl, rfl, rfl, rfl,
    ttsFailure_fallback envGeminiFail sceneLong 1 (fun _ => none)
      rfl rfl rfl rfl rfl⟩

/-- C3 counterexample: a scene with 12 characters of narration whose
synthesis request failed has no audio buffer, and its effective duration
at rate 1 is 2000 ms — not the 3000 ms that "the estimated duration
divided by the clamped rate" (`max(2, 12·0.25) = 3` seconds) would
give.  The general clause of the claim therefore fails for scenes that
carry no stored duration. -/
theorem effectiveDuration_formula_cex :
    (acquireAudio envGeminiFail scene12).audioData = none ∧
    effectiveDurationMs (fun _ => none) 1 (acquireAudio envGeminiFail scene12)
      = some 2000 ∧
    estimateDuration scene12.originalText * 1000 / clampRate 1 = 3000 ∧
    (2000 : ℚ) ≠ 3000 := by
  have h12 : scene12.originalText.length = 12 := rfl
  refine ⟨rfl, ?_, ?_, by norm_num⟩
  · show some (jsOrDefault none 2 * 1000 / clampRate 1) = some 2000
    norm_num [jsOrDefault, clampRate, jsMin, jsMax]
  · norm_num [estimateDuration, jsMax, h12, clampRate, jsMin]

/-- C3 amended: with an audio buffer, the effective duration is the
re-decoded buffer duration divided by the clamped rate (times 1000 ms);
without a buffer it is the STORED duration (the estimate, when the
estimate path ran) divided by the clamped rate, defaulting to 2.0
seconds when no duration is stored (e.g. after a failed synthesis);
`clampRate` is exactly `clamp(rate, 0.1, 4.0)`, a configured rate of
10.0 clamps to 4.0 and 0.01 to 0.1, and a scene with text of length 8
and no audio yields 2000 ms at rate 1.0 and 1000 ms at rate 2.0. -/
theorem effectiveDuration_formula (dec : List Nat → Option ℚ) (rate : ℚ)
    (s : StoryboardScene) :
    (∀ bytes d, s.audioData = some bytes → dec bytes = some d →
      effectiveDurationMs dec rate s = some (d / clampRate rate * 1000)) ∧
    (∀ d, s.audioData = none → s.audioDuration = some d → d ≠ 0 →
      effectiveDurationMs dec rate s = some (d * 1000 / clampRate rate)) ∧
    (s.audioData = none → s.audioDuration = none →
      effectiveDurationMs dec rate s = some (2 * 1000 / clampRate rate)) ∧
    (∀ r : ℚ, clampRate r = max (1 / 10) (min r 4)) ∧
    clampRate 10 = 4 ∧ clampRate (1 / 100) = 1 / 10 ∧
    effectiveDurationMs dec 1 (acquireAudio envBrowser scene8) = some 2000 ∧
    effectiveDurationMs dec 2 (acquireAudio envBrowser scene8) = some 1000 := by
  have h8 : scene8.originalText.length = 8 := rfl
  have hest : estimateDuration scene8.originalText = 2 := by
    norm_num [estimateDuration, jsMax, h8]
  have hacq : acquireAudio envBrowser scene8
      = { scene8 with audioDuration := some (estimateDuration scene8.originalText) } :=
    rfl
  refine ⟨?_, ?_, ?_, ?_, ?_, ?_, ?_, ?_⟩
  · intro bytes d hb hd
    simp [effectiveDurationMs, hb, hd]
  · intro d h1 h2 hd0
    simp [effectiveDurationMs, h1, h2, jsOrDefault, hd0]
  · intro h1 h2
    simp [effectiveDurationMs, h1, h2, jsOrDefault]
  · exact clampRate_eq
  · norm_num [clampRate, jsMin, jsMax]
  · norm_num [clampRate, jsMin, jsMax]
  · rw [hacq, hest]
    show some (jsOrDefault (some 2) 2 * 1000 / clampRate 1) = some 2000
    norm_num [jsOrDefault, clampRate, jsMin, jsMax]
  · rw [hacq, hest]
    show some (jsOrDefault (some 2) 2 * 1000 / clampRate 2) = some 1000
    norm_num [jsOrDefault, clampRate, jsMin, jsMax]

theorem effectiveDuration_formula_witness :
    (mkScene 4 "q" "v").audioData = none ∧
    (mkScene 4 "q" "v").audioDuration = none ∧
    effectiveDurationMs (fun _ => none) 1 (mkScene 4 "q" "v")
      = some (2 * 1000 / clampRate 1) :=
  ⟨rfl, rfl,
    (effectiveDuration_formula (fun _ => none) 1 (mkScene 4 "q" "v")).2.2.1
      rfl rfl⟩

/-! ## The export entry points

`handleExportVideo` (lines 681-727) runs the whole export pipeline:
guard clauses, per-scene audio acquisition, `setScenes(updatedScenes)`,
`recordVideo`, and a `finally` that clears the exporting flag.  The
export button in `Header` (line 395) is rendered with
`disabled={isExporting}`, so a click while an export is in progress
never reaches `handleExportVideo`. -/

/-- The runtime capabilities `recordVideo` probes, plus the configured
playback rate.  `mimeSupported` is `MediaRecorder.isTypeSupported`. -/
structure ExportEnv where
  tts : TTSEnv
  audioCtxAvailable : Bool
  mediaRecorderAvailable : Bool
  canvas2d : Bool
  mimeSupported : String → Bool
  ttsRate : ℚ

/-- The candidate container/codec list probed in order (line 745). -/
def mimeCandidates : List String :=
  ["video/mp4", "video/webm;codecs=h264", "video/webm"]

/-- Outcome of one `recordVideo` call: it throws (no `MediaRecorder`,
line 730; no supported mime type, line 746; a decode rejection mid-loop),
returns early without output (no 2d canvas context, line 739), or
produces the output file, summarised here by the per-scene effective
durations that drive the render loops. -/
inductive RecordResult
  | failed (msg : String)
  | noOutput
  | output (durations : List ℚ)
deriving DecidableEq, Repr

/-- `recordVideo` (lines 729-837), abstracted to its control flow and the
per-scene durations. -/
def recordVideo (env : ExportEnv) (scenes : List StoryboardScene) :
    RecordResult :=
  if env.mediaRecorderAvailable = false then
    RecordResult.failed "no MediaRecorder"
  else if env.canvas2d = false then RecordResult.noOutput
  else if (mimeCandidates.find? env.mimeSupported) = none then
    RecordResult.failed "unsupported encoding"
  else
    match scenes.mapM (effectiveDurationMs env.tts.decode env.ttsRate) with
    | some ds => RecordResult.output ds
    | none => RecordResult.failed "decode error"

/-- The application state the export pipeline touches: the scene list,
the `isExporting` flag, and the files handed to the user so far (each
summarised by its per-scene durations). -/
structure AppState where
  scenes : List StoryboardScene
  isExporting : Bool
  outputs : List (List ℚ)
deriving Repr

/-- `handleExportVideo` (lines 681-727) as a state transformer: an empty
scene list returns before anything happens (line 682), a missing audio
context alerts and returns before the flag is set (lines 683-684);
otherwise audio is acquired for every scene, `setScenes(updatedScenes)`
commits them, `recordVideo` runs, an output is delivered only on
success, and the `finally` (lines 723-726) always leaves the flag
cleared. -/
def handleExportVideo (env : ExportEnv) (st : AppState) : AppState :=
  if st.scenes = [] then st
  else if env.audioCtxAvailable = false then st
  else
    let updated := st.scenes.map (acquireAudio env.tts)
    match recordVideo env updated with
    | RecordResult.output ds =>
      { scenes := updated, isExporting := false, outputs := st.outputs ++ [ds] }
    | _ => { scenes := updated, isExporting := false, outputs := st.outputs }

/-- A click on the export button (`Header`, line 395): the button is
rendered `disabled={isExporting}`, so while an export is in progress the
click event never fires and the state is untouched; otherwise
`handleExportVideo` runs. -/
def exportButtonClick (env : ExportEnv) (st : AppState) : AppState :=
  if st.isExporting then st else handleExportVideo env st

/-- A fully capable concrete environment. -/
def env0 : ExportEnv :=
  { tts := envBrowser, audioCtxAvailable := true,
    mediaRecorderAvailable := true, canvas2d := true,
    mimeSupported := fun _ => true, ttsRate := 1 }

/-- C8: while an export is in progress (`isExporting = true`), a second
export request through the export button is a no-op: the disabled button
swallows the click, so no second pipeline is started, no output is
produced, and the state — including the first export's scene snapshots,
flag and outputs — is completely unchanged. -/
theorem reentrantExport_noop (env : ExportEnv) (st : AppState)
    (h : st.isExporting = true) :
    exportButtonClick env st = st ∧
    (exportButtonClick env st).outputs = st.outputs := by
  have hclick : exportButtonClick env st = st := by
    unfold exportButtonClick
    rw [h]
    simp
  exact ⟨hclick, by rw [hclick]⟩

theorem reentrantExport_noop_witness :
    (AppState.mk [scene8] true []).isExporting = true ∧
    (exportButtonClick env0 (AppState.mk [scene8] true [])
        = AppState.mk [scene8] true [] ∧
     (exportButtonClick env0 (AppState.mk [scene8] true [])).outputs
        = (AppState.mk [scene8] true []).outputs) :=
  ⟨rfl, reentrantExport_noop env0 (AppState.mk [scene8] true []) rfl⟩

/-- C10: requesting an export with an empty scene list is a no-op — the
guard on line 682 returns before the exporting flag is set, before any
audio acquisition or rendering, and before any output is produced, so
the state is returned completely unchanged. -/
theorem emptyExport_noop (env : ExportEnv) (st : AppState)
    (h : st.scenes = []) :
    handleExportVideo env st = st ∧
    (handleExportVideo env st).isExporting = st.isExporting ∧
    (handleExportVideo env st).outputs = st.outputs := by
  have hrun : handleExportVideo env st = st := by
    unfold handleExportVideo
    rw [if_pos h]
  exact ⟨hrun, by rw [hrun], by rw [hrun]⟩

theorem emptyExport_noop_witness :
    (AppState.mk [] false []).scenes = [] ∧
    (handleExportVideo env0 (AppState.mk [] false [])
        = AppState.mk [] false [] ∧
     (handleExportVideo env0 (AppState.mk [] false [])).isExporting = false ∧
     (handleExportVideo env0 (AppState.mk [] false [])).outputs = []) :=
  ⟨rfl, emptyExport_noop env0 (AppState.mk [] false []) rfl⟩

end Storyboard
